import Mathlib

/-!
Verification development for the Big Dipper sales-assistant app (`app.py`).

The Python source is shallowly embedded:

* JSON values returned by the vendor backend become the inductive `JVal`
  (numbers are modelled as integers; parsed JSON objects are association
  lists with distinct keys, matching Python dicts obtained from `json.loads`).
* Python truthiness (`or`, `if x:`), `str()`, `int()` and `.strip().upper()`
  are modelled by `jTruthy`, `pyOr`, `pyStr`, `pyInt` and `normalize_model`
  (ASCII scope, which covers the product codes the app manipulates).
* Every HTTP interaction is a parameter: a `Backend` assigns to each endpoint
  and payload shape the response the server would give, so the fetch
  functions become total functions of the backend.  An exception raised by
  `requests` or by JSON parsing is the `FetchResult.err` case.
* The Streamlit session state (`products_cache`, `last_products`) becomes the
  explicit record `AppState`, and the body of the conversation loop becomes
  `processTurn`.
-/

namespace BigDipper

/-- JSON-like values as produced by `r.json()` / `json.loads`. -/
inductive JVal where
  | null
  | bool (b : Bool)
  | num (n : Int)
  | str (s : String)
  | arr (elems : List JVal)
  | obj (fields : List (String × JVal))

/-- A parsed JSON object: association list with the dict's insertion order. -/
abbrev Jdict := List (String × JVal)

/-- First-match association lookup (Python dict keys are unique, so the
    first match is the only one). -/
def dictLookup {β : Type} : List (String × β) → String → Option β
  | [], _ => none
  | (k, v) :: rest, key => if k = key then some v else dictLookup rest key

/-- `d.get(k)` — `None` when the key is absent. -/
def jgetv (d : Jdict) (k : String) : JVal := (dictLookup d k).getD JVal.null

/-- `d.get(k, default)`. -/
def jgetD (d : Jdict) (k : String) (dflt : JVal) : JVal := (dictLookup d k).getD dflt

/-- `k in d`. -/
def hasKey (d : Jdict) (k : String) : Bool := (dictLookup d k).isSome

/-- Python truthiness of a JSON value. -/
def jTruthy : JVal → Bool
  | JVal.null => false
  | JVal.bool b => b
  | JVal.num n => n != 0
  | JVal.str s => s ≠ ""
  | JVal.arr xs => !xs.isEmpty
  | JVal.obj fs => !fs.isEmpty

/-- Python `a or b`. -/
def pyOr (a b : JVal) : JVal := if jTruthy a then a else b

mutual
/-- Python `repr()` of a JSON value (ASCII, no escaping inside strings). -/
def pyRepr : JVal → String
  | JVal.null => "None"
  | JVal.bool true => "True"
  | JVal.bool false => "False"
  | JVal.num n => toString n
  | JVal.str s => "\x27" ++ s ++ "\x27"
  | JVal.arr xs => "[" ++ pyReprElems xs ++ "]"
  | JVal.obj fs => "\x7b" ++ pyReprFields fs ++ "\x7d"

/-- `repr` of the elements of a list, comma separated. -/
def pyReprElems : List JVal → String
  | [] => ""
  | [x] => pyRepr x
  | x :: y :: rest => pyRepr x ++ ", " ++ pyReprElems (y :: rest)

/-- `repr` of the items of a dict, comma separated. -/
def pyReprFields : List (String × JVal) → String
  | [] => ""
  | [(k, v)] => "\x27" ++ k ++ "\x27: " ++ pyRepr v
  | (k, v) :: f :: rest => "\x27" ++ k ++ "\x27: " ++ pyRepr v ++ ", " ++ pyReprFields (f :: rest)
end

/-- Python `str()` of a JSON value (`str` of a string is the string itself,
    containers and scalars print as their `repr`). -/
def pyStr : JVal → String
  | JVal.str s => s
  | v => pyRepr v

/-- Python `int(x)` on a JSON value; `none` models the raised
    `TypeError`/`ValueError`.  (`int` of a string accepts surrounding
    whitespace and an optional sign.) -/
def digitsToNat (ds : List Char) : Nat := ds.foldl (fun a c => a * 10 + (c.toNat - 48)) 0

/-- The value of a nonempty all-digit character list, if it is one. -/
def digitsVal : List Char → Option Nat
  | l => if l ≠ [] ∧ l.all Char.isDigit then some (digitsToNat l) else none

/-- Whitespace set stripped by Python `str.strip()` (ASCII part). -/
def isWs (c : Char) : Bool :=
  (c == ' ') || (c == '\t') || (c == '\n') || (c == '\x0d') || (c == '\x0b') || (c == '\x0c')

/-- Python `str.strip()` on a character list. -/
def pyStrip (l : List Char) : List Char :=
  (((l.dropWhile isWs).reverse).dropWhile isWs).reverse

/-- Python `str.strip()`. -/
def pyStripStr (s : String) : String := String.mk (pyStrip s.data)

/-- ASCII uppercase of a character, Python `str.upper()` pointwise. -/
def upChar (c : Char) : Char :=
  if h : 97 ≤ c.toNat ∧ c.toNat ≤ 122 then
    ⟨UInt32.ofNat (c.toNat - 32), by
      have hs : UInt32.size = 4294967296 := rfl
      have h32 : (UInt32.ofNat (c.toNat - 32)).toNat = c.toNat - 32 := by
        have hm : (UInt32.ofNat (c.toNat - 32)).toNat = (c.toNat - 32) % UInt32.size := by
          simp [UInt32.ofNat, UInt32.toNat, Fin.ofNat]
        rw [hm]
        exact Nat.mod_eq_of_lt (by omega)
      exact Or.inl (by rw [h32]; omega)⟩
  else c

/-- `normalize_model`: `token.strip().upper()`. -/
def normalize_model (token : String) : String :=
  String.mk ((pyStrip token.data).map upChar)

/-- Python `int()` on a string: optional surrounding whitespace, optional
    sign, then decimal digits; anything else raises (`none`). -/
def strToInt (s : String) : Option Int :=
  match pyStrip s.data with
  | '-' :: rest => (digitsVal rest).map (fun n => -(n : Int))
  | '+' :: rest => (digitsVal rest).map (fun n => (n : Int))
  | l => (digitsVal l).map (fun n => (n : Int))

/-- Python `int(x)`; `none` models the raised exception. -/
def pyInt : JVal → Option Int
  | JVal.num n => some n
  | JVal.bool b => some (if b then 1 else 0)
  | JVal.str s => strToInt s
  | _ => none

/-! ## HTTP backend model

`FetchResult` is the outcome of one `session.post`/`session.get` call:

* `err` — the call (or `r.json()` when demanded unconditionally) raised;
* `ok status ctJson body textBraced` — a response with the given
  status code, whether `"application/json"` occurs in its content type,
  the JSON parse of its body (`none` when parsing raises), and whether the
  stripped body text starts with `{` and ends with `}`.
-/
inductive FetchResult where
  | err
  | ok (status : Nat) (ctJson : Bool) (body : Option JVal) (textBraced : Bool)

/-- The environment of the resolvers: what the vendor's server answers for
    each request shape the code tries.

    * `postId ep pid` — response of `session.post(ep, json={"ProductId": pid})`;
    * `scrape pid` — result of the best-effort fallback of
      `fetch_product_json_by_product_id` (lines 155-168 of `app.py`): the
      embedded JSON object extracted by regex from the product page and
      parsed by `json.loads`, or `none` when the page fetch fails, no match
      is found, or parsing raises.  The regex/`json.loads` machinery itself
      is kept abstract; only its outcome matters to the resolver logic.
    * `search ep pk code` — response of `session.post(ep, json={pk: code})`
      for payload key `pk` (one of `"q"`, `"Query"`, `"text"`, `"Code"`). -/
structure Backend where
  postId : String → Int → FetchResult
  scrape : Int → Option Jdict
  search : String → String → String → FetchResult

def BASE : String := "https://www.bigdipper.com.ar"

def byIdEndpoints : List String :=
  [BASE ++ "/Products/View", BASE ++ "/products/view",
   BASE ++ "/Products/ProductView", BASE ++ "/products/ProductView",
   BASE ++ "/api/Products/View", BASE ++ "/api/products/view",
   BASE ++ "/api/Product/View", BASE ++ "/api/product/view"]

/-- Body extraction in `fetch_product_json_by_product_id`: accept a JSON
    content type, or a non-JSON body whose stripped text is brace-delimited
    and parses; everything else (or a parse exception) skips the endpoint. -/
def parseIdBody : FetchResult → Option JVal
  | FetchResult.err => none
  | FetchResult.ok status ctJson body textBraced =>
    if status ≠ 200 then none
    else if ctJson then body
    else if textBraced then body
    else none

/-- The structural check of `fetch_product_json_by_product_id`:
    `isinstance(data, dict) and ("Code" in data or "ProductId" in data or
    "DescriptionLong" in data)`. -/
def validById : JVal → Option Jdict
  | JVal.obj d =>
    if hasKey d "Code" || hasKey d "ProductId" || hasKey d "DescriptionLong" then some d
    else none
  | _ => none

def fetchIdAttempts (b : Backend) (pid : Int) : List String → Option Jdict
  | [] => b.scrape pid
  | ep :: rest =>
    match (parseIdBody (b.postId ep pid)).bind validById with
    | some d => some d
    | none => fetchIdAttempts b pid rest

/-- `fetch_product_json_by_product_id`: try the eight endpoints in order,
    then fall back to scraping the product page. -/
def fetch_product_json_by_product_id (b : Backend) (product_id : Int) : Option Jdict :=
  fetchIdAttempts b product_id byIdEndpoints

def searchEndpoints : List String :=
  [BASE ++ "/Products/Search", BASE ++ "/products/search",
   BASE ++ "/api/Products/Search", BASE ++ "/api/products/search"]

def searchPayloadKeys : List String := ["q", "Query", "text", "Code"]

/-- The `(endpoint, payload)` attempts of `fetch_product_json_by_code`, in
    the order of the two nested `for` loops. -/
def searchAttempts : List (String × String) :=
  searchEndpoints.flatMap (fun ep => searchPayloadKeys.map (fun pk => (ep, pk)))

/-- The per-item match guard:
    `isinstance(item, dict) and normalize_model(str(item.get("Code", ""))) ==
    normalize_model(code)` — with the item's dict when it holds. -/
def itemCodeKey (d : Jdict) : String := normalize_model (pyStr (jgetD d "Code" (JVal.str "")))

/-- Scanning the items of a JSON *list* response inside one attempt of
    `fetch_product_json_by_code`.  The result is
    `some r` when the attempt returns `r` (short-circuiting the outer loops)
    and `none` when the scan falls through (continue with the next attempt).
    An `int(pid)` exception is caught by the attempt's `except`, which also
    abandons this scan (`none`). -/
def scanListItems (b : Backend) (code : String) : List JVal → Option (Option Jdict)
  | [] => none
  | JVal.obj d :: rest =>
    if itemCodeKey d = normalize_model code then
      if hasKey d "DescriptionLong" then some (some d)
      else
        if jTruthy (pyOr (jgetv d "ProductId") (jgetv d "Id")) then
          match pyInt (pyOr (jgetv d "ProductId") (jgetv d "Id")) with
          | some n => some (fetch_product_json_by_product_id b n)
          | none => none
        else scanListItems b code rest
    else scanListItems b code rest
  | _ :: rest => scanListItems b code rest

/-- Scanning the items of a `results`-style list inside a JSON *dict*
    response; this branch never returns the item itself, only delegates via
    `ProductId`. -/
def scanDictItems (b : Backend) (code : String) : List JVal → Option (Option Jdict)
  | [] => none
  | JVal.obj d :: rest =>
    if itemCodeKey d = normalize_model code then
      if jTruthy (pyOr (jgetv d "ProductId") (jgetv d "Id")) then
        match pyInt (pyOr (jgetv d "ProductId") (jgetv d "Id")) with
        | some n => some (fetch_product_json_by_product_id b n)
        | none => none
      else scanDictItems b code rest
    else scanDictItems b code rest
  | _ :: rest => scanDictItems b code rest

/-- `data.get("results") or data.get("Results") or data.get("data") or
    data.get("Data")`. -/
def getResults (d : Jdict) : JVal :=
  pyOr (pyOr (pyOr (jgetv d "results") (jgetv d "Results")) (jgetv d "data")) (jgetv d "Data")

/-- One `(endpoint, payload)` attempt of `fetch_product_json_by_code`:
    `some r` short-circuits the loops with result `r`, `none` moves on. -/
def codeAttempt (b : Backend) (code : String) (ep pk : String) : Option (Option Jdict) :=
  match b.search ep pk code with
  | FetchResult.err => none
  | FetchResult.ok status ctJson body _ =>
    if status ≠ 200 then none
    else if !ctJson then none
    else match body with
      | none => none
      | some (JVal.arr items) => scanListItems b code items
      | some (JVal.obj d) =>
        match getResults d with
        | JVal.arr items => scanDictItems b code items
        | _ => none
      | some _ => none

def fetchCodeAttempts (b : Backend) (code : String) : List (String × String) → Option Jdict
  | [] => none
  | (ep, pk) :: rest =>
    match codeAttempt b code ep pk with
    | some r => r
    | none => fetchCodeAttempts b code rest

/-- `fetch_product_json_by_code`: probe the search endpoint/payload shapes in
    order, short-circuiting on the first attempt that yields a result. -/
def fetch_product_json_by_code (b : Backend) (code : String) : Option Jdict :=
  fetchCodeAttempts b code searchAttempts

/-! ## `compact_product` and the session state -/

/-- The fixed downstream field set produced by `compact_product`.  Field
    values are raw JSON values (Python keeps them duck-typed). -/
structure CompactProduct where
  ProductId : JVal
  Code : JVal
  DescriptionShort : JVal
  DescriptionLong : JVal
  Price : JVal
  Stock : JVal
  Image : JVal
  DataSheet : JVal
  Links : JVal

/-- `compact_product`: total normalization of a raw backend dict. -/
def compact_product (product : Jdict) : CompactProduct :=
  { ProductId := jgetv product "ProductId"
    Code := pyOr (jgetv product "Code") (jgetv product "code")
    DescriptionShort := pyOr (jgetv product "DescriptionShort") (JVal.str "")
    DescriptionLong := pyOr (jgetv product "DescriptionLong") (JVal.str "")
    Price := jgetv product "Price"
    Stock := jgetv product "Stock"
    Image := jgetv product "Image"
    DataSheet := jgetv product "DataSheet"
    Links := pyOr (jgetv product "Links") (JVal.arr []) }

/-- `normalize_model(str(p.get("Code") or ""))` — the session cache key of a
    compacted record. -/
def prodKey (p : CompactProduct) : String :=
  normalize_model (pyStr (pyOr p.Code (JVal.str "")))

/-- A compacted record viewed again as the Python dict it is (used when the
    conversation loop re-caches the products of a turn). -/
def toJdict (p : CompactProduct) : Jdict :=
  [("ProductId", p.ProductId), ("Code", p.Code),
   ("DescriptionShort", p.DescriptionShort), ("DescriptionLong", p.DescriptionLong),
   ("Price", p.Price), ("Stock", p.Stock), ("Image", p.Image),
   ("DataSheet", p.DataSheet), ("Links", p.Links)]

/-- Python dict assignment `m[k] = v`: replace in place, else append. -/
def dictInsert {κ β : Type} [DecidableEq κ] : List (κ × β) → κ → β → List (κ × β)
  | [], k, v => [(k, v)]
  | (k0, v0) :: rest, k, v =>
    if k0 = k then (k, v) :: rest else (k0, v0) :: dictInsert rest k v

/-- Generic association lookup over any key type. -/
def alookup {κ β : Type} [DecidableEq κ] : List (κ × β) → κ → Option β
  | [], _ => none
  | (k0, v0) :: rest, k => if k0 = k then some v0 else alookup rest k

/-- The Streamlit session state used by the app: `st.session_state.products_cache`
    (`by_code` and `by_pid`, modelled as insertion-ordered dicts) and
    `st.session_state.last_products`. -/
structure AppState where
  by_code : List (String × CompactProduct)
  by_pid : List (Int × CompactProduct)
  last_products : List String

/-- `init_state()`: empty caches and empty MRU list. -/
def init_state : AppState := ⟨[], [], []⟩

/-- `cache_product(prod)`.  Returns the updated state together with a flag
    recording whether the call raised: `int(pid)` on a truthy, non-null,
    non-convertible `ProductId` raises *after* the `by_code` update and
    *before* the `by_pid` and `last_products` updates, and `cache_product`
    has no exception handler. -/
def cache_product (prod : Jdict) (st : AppState) : AppState × Bool :=
  let p := compact_product prod
  let code := prodKey p
  let st1 := if code ≠ "" then { st with by_code := dictInsert st.by_code code p } else st
  let push := fun (s : AppState) =>
    if code ≠ "" then
      { s with last_products := (code :: s.last_products.filter (fun c => c ≠ code)).take 5 }
    else s
  match p.ProductId with
  | JVal.null => (push st1, false)
  | v =>
    match pyInt v with
    | none => (st1, true)
    | some n => (push { st1 with by_pid := dictInsert st1.by_pid n p }, false)

/-- `get_cached_by_code(code)`. -/
def get_cached_by_code (code : String) (st : AppState) : Option CompactProduct :=
  dictLookup st.by_code (normalize_model code)

/-- `get_cached_by_pid(pid)`. -/
def get_cached_by_pid (pid : Int) (st : AppState) : Option CompactProduct :=
  alookup st.by_pid pid

/-- `get_last_products()`: cached records of the MRU codes, in MRU order,
    silently skipping missing entries. -/
def get_last_products (st : AppState) : List CompactProduct :=
  st.last_products.filterMap (fun code => get_cached_by_code code st)

/-! ## Answer generation -/

/-- Outcome of `model.generate_content`: an exception with its message, or a
    response whose `.text` is `none` (null) or a string. -/
inductive GenResult where
  | raises (msg : String)
  | returns (text : Option String)

/-- `ask_gemini` (the part after the prompt is built): empty or whitespace
    output is replaced by a fixed apology, an exception becomes a fixed
    error-prefixed message. -/
def ask_gemini : GenResult → String
  | GenResult.raises e => "Error al consultar Gemini: " ++ e
  | GenResult.returns t =>
    let text := pyStripStr (t.getD "")
    if text ≠ "" then text else "No pude generar una respuesta. Probá reformular la pregunta."

/-- The rule-based answer built from the first product when no generation
    model is configured (lines 454-462 of `app.py`). -/
def ruleFallback (p : CompactProduct) : String :=
  "**" ++ pyStr p.Code ++ "**\n\n" ++
  "- " ++ pyStr p.DescriptionShort ++ "\n" ++
  "- Stock: " ++ pyStr p.Stock ++ "\n" ++
  "- Precio: USD " ++ pyStr p.Price ++ "\n\n" ++
  "Si querés, decime **qué necesitás resolver** (uso, ambiente, distancia, compatibilidad) " ++
  "y lo traduzco a una recomendación comercial."

/-- The clarification message shown when no product could be attached. -/
def clarifyMsg : String :=
  "No pude enganchar ningún producto en tu consulta.\n\n" ++
  "Pegame **una URL** tipo `bigdipper.com.ar/products/view/####` " ++
  "o el **modelo exacto** (como figura en Big Dipper).\n\n" ++
  "Tip: también sirve si pegás el **JSON** de la ficha (como hiciste antes)."

/-! ## The conversation-turn pipeline -/

/-- Step 1 of the loop: resolve each extracted URL by `ProductId` (cache
    first), caching fresh fetches.  `if data:` is Python truthiness, so a
    `None` result *and* an empty dict are both skipped.  `none` models an
    uncaught exception from `cache_product`. -/
def resolveUrlLoop (b : Backend) : List (String × Nat) → AppState → List CompactProduct →
    Option (AppState × List CompactProduct)
  | [], st, acc => some (st, acc)
  | (_, pid) :: rest, st, acc =>
    match get_cached_by_pid (Int.ofNat pid) st with
    | some p => resolveUrlLoop b rest st (acc ++ [p])
    | none =>
      match fetch_product_json_by_product_id b (Int.ofNat pid) with
      | some d =>
        if d.isEmpty then resolveUrlLoop b rest st acc
        else if (cache_product d st).2 then none
        else resolveUrlLoop b rest (cache_product d st).1 (acc ++ [compact_product d])
      | none => resolveUrlLoop b rest st acc

/-- Step 2 of the loop: resolve each extracted model code (cache first). -/
def resolveCodeLoop (b : Backend) : List String → AppState → List CompactProduct →
    Option (AppState × List CompactProduct)
  | [], st, acc => some (st, acc)
  | code :: rest, st, acc =>
    match get_cached_by_code code st with
    | some p => resolveCodeLoop b rest st (acc ++ [p])
    | none =>
      match fetch_product_json_by_code b code with
      | some d =>
        if d.isEmpty then resolveCodeLoop b rest st acc
        else if (cache_product d st).2 then none
        else resolveCodeLoop b rest (cache_product d st).1 (acc ++ [compact_product d])
      | none => resolveCodeLoop b rest st acc

/-- Steps 1-2 together: the products resolved from the current message. -/
def resolveAll (b : Backend) (urls : List (String × Nat)) (models : List String)
    (st : AppState) : Option (AppState × List CompactProduct) :=
  match resolveUrlLoop b urls st [] with
  | none => none
  | some (st1, ps1) => resolveCodeLoop b models st1 ps1

/-- The dedup-by-`Code` pass of the loop: a Python dict keyed by
    `normalize_model(str(p.get("Code") or ""))`, keeping the first record per
    nonempty key in first-seen order. -/
def dedupByCode : List CompactProduct → List String → List CompactProduct
  | [], _ => []
  | p :: rest, seen =>
    if prodKey p ≠ "" ∧ prodKey p ∉ seen then p :: dedupByCode rest (prodKey p :: seen)
    else dedupByCode rest seen

/-- The re-caching pass `for p in products: cache_product(p)` of the answer
    branch; `none` models an uncaught `cache_product` exception. -/
def cacheAll : List CompactProduct → AppState → Option AppState
  | [], st => some st
  | p :: rest, st =>
    if (cache_product (toJdict p) st).2 then none
    else cacheAll rest (cache_product (toJdict p) st).1

/-- The displayed answer of the answer branch: Gemini when a model is
    configured, otherwise the rule-based answer from `products[0]`.  (The
    `[]` case is unreachable: the branch is guarded by a nonempty product
    list.) -/
def genAnswer (geminiAvailable : Bool) (gr : GenResult) : List CompactProduct → String
  | [] => ""
  | p :: _ => if geminiAvailable then ask_gemini gr else ruleFallback p

/-- Result of one turn of the conversation loop. -/
inductive TurnResult where
  | raised
  | clarified (st : AppState)
  | answered (text : String) (products : List CompactProduct) (st : AppState)

/-- The body of the conversation loop for one user message, parameterized by
    the extraction results of the message (`extract_urls` / `extract_models`),
    the backend, the availability and outcome of the hosted generation call,
    and the session state. -/
def processTurn (b : Backend) (urls : List (String × Nat)) (models : List String)
    (geminiAvailable : Bool) (gr : GenResult) (st : AppState) : TurnResult :=
  match resolveAll b urls models st with
  | none => TurnResult.raised
  | some (st1, ps) =>
    let ps2 := if ps.isEmpty then get_last_products st1 else ps
    let fin := dedupByCode ps2 []
    if fin.isEmpty then TurnResult.clarified st1
    else
      match cacheAll fin st1 with
      | none => TurnResult.raised
      | some st2 => TurnResult.answered (genAnswer geminiAvailable gr fin) fin st2

/-! ## `extract_urls`

`PRODUCT_URL_RE = (https?://(?:www\.)?bigdipper\.com\.ar/products/view/(\d+))`,
case-insensitive, scanned with `finditer` (leftmost non-overlapping matches).
The matcher is written out for this one concrete pattern. -/

/-- Case-insensitive literal match: `pat` is given in lowercase; on success
    returns the remaining input. -/
def stripCI (pat : List Char) (s : List Char) : Option (List Char) :=
  match pat, s with
  | [], rest => some rest
  | _ :: _, [] => none
  | p :: ps, c :: cs => if c.toLower = p then stripCI ps cs else none

/-- Maximal leading digit run (`(\d+)` is greedy and last in the pattern). -/
def takeDigits : List Char → List Char × List Char
  | [] => ([], [])
  | c :: cs =>
    if c.isDigit then
      let r := takeDigits cs
      (c :: r.1, r.2)
    else ([], c :: cs)

def hostPath : List Char := "bigdipper.com.ar/products/view/".data

/-- Match `PRODUCT_URL_RE` at the start of `s`: on success, the matched URL
    text (group 1), the parsed numeric id (group 2 through `int`), and the
    rest of the input. -/
def matchProductUrl (s : List Char) : Option (String × Nat × List Char) :=
  match stripCI "http".data s with
  | none => none
  | some s1 =>
    let s2 := match s1 with
      | c :: cs => if c.toLower = 's' then cs else s1
      | [] => s1
    match stripCI "://".data s2 with
    | none => none
    | some s3 =>
      let s4 := match stripCI "www.".data s3 with
        | some r => r
        | none => s3
      match stripCI hostPath s4 with
      | none => none
      | some s5 =>
        match takeDigits s5 with
        | ([], _) => none
        | (ds, rest) => some (String.mk (s.take (s.length - rest.length)), digitsToNat ds, rest)

/-- `finditer` scan: try a match at every position, emit matches left to
    right, continue after each match.  Fuelled by the input length (each
    step consumes at least one character). -/
def extractUrlsAux : Nat → List Char → List (String × Nat)
  | 0, _ => []
  | _ + 1, [] => []
  | fuel + 1, c :: cs =>
    match matchProductUrl (c :: cs) with
    | some (u, n, rest) => (u, n) :: extractUrlsAux fuel rest
    | none => extractUrlsAux fuel cs

/-- `extract_urls(text)`: all `(url, product_id)` pairs, in appearance order. -/
def extract_urls (text : String) : List (String × Nat) :=
  extractUrlsAux text.data.length text.data

/-! ## Auxiliary definitions used by the statements -/

/-- The decimal digit characters. -/
def digitChar : Nat → Char
  | 0 => '0' | 1 => '1' | 2 => '2' | 3 => '3' | 4 => '4'
  | 5 => '5' | 6 => '6' | 7 => '7' | 8 => '8' | _ => '9'

/-- Decimal representation of a natural number as characters. -/
def natDigits (n : Nat) : List Char :=
  if _ : n < 10 then [digitChar n] else natDigits (n / 10) ++ [digitChar (n % 10)]
termination_by n
decreasing_by exact Nat.div_lt_self (by omega) (by omega)

/-- A canonical well-formed product-view URL with id `n` (characters). -/
def mkUrl (n : Nat) : List Char :=
  "https://www.bigdipper.com.ar/products/view/".data ++ natDigits n

/-- The same URL as a string. -/
def mkUrlStr (n : Nat) : String := String.mk (mkUrl n)

/-- A text consisting of the URLs of `ns`, each followed by a space. -/
def urlsChars : List Nat → List Char
  | [] => []
  | n :: rest => mkUrl n ++ ' ' :: urlsChars rest

/-- The first character (if any) is not a digit. -/
def headNonDigit : List Char → Prop
  | [] => True
  | c :: _ => c.isDigit = false

/-- Fold `cache_product` over a list of raw records, from the fresh state. -/
def rememberAll (prods : List Jdict) : AppState :=
  prods.foldl (fun st p => (cache_product p st).1) init_state

/-- Invariant of reachable session states: the MRU list has no duplicates,
    its entries are nonempty normalization fixed points, and every `by_code`
    entry is stored under its own key. -/
def StateInv (st : AppState) : Prop :=
  st.last_products.Nodup
  ∧ (∀ c ∈ st.last_products, c ≠ "" ∧ normalize_model c = c)
  ∧ (∀ kp ∈ st.by_code, prodKey kp.2 = kp.1)

/-- The text displayed for a turn that reached the answer branch. -/
def answerTextOf : TurnResult → Option String
  | TurnResult.answered t _ _ => some t
  | _ => none

/-! ## Concrete fixtures (backends used by witnesses and counterexamples) -/

/-- A backend on which every call raises. -/
def bAllErr : Backend :=
  ⟨fun _ _ => FetchResult.err, fun _ => none, fun _ _ _ => FetchResult.err⟩

/-- A full product record (all scalar fields are strings). -/
def dT : Jdict :=
  [("ProductId", JVal.num 5), ("Code", JVal.str "A-1"),
   ("DescriptionShort", JVal.str "Camara IP"), ("DescriptionLong", JVal.str "Camara IP PoE IP67"),
   ("Price", JVal.str "100"), ("Stock", JVal.str "12")]

/-- A backend serving `dT` both by id 5 on the first view endpoint and as the
    single full item of the first search attempt for code `A-1`. -/
def bT : Backend :=
  ⟨fun ep pid =>
    if ep = BASE ++ "/Products/View" ∧ pid = 5 then
      FetchResult.ok 200 true (some (JVal.obj dT)) false
    else FetchResult.err,
   fun _ => none,
   fun ep pk c =>
    if ep = BASE ++ "/Products/Search" ∧ pk = "q" ∧ c = "A-1" then
      FetchResult.ok 200 true (some (JVal.arr [JVal.obj dT])) false
    else FetchResult.err⟩

/-- A search item matching code `A-1` but carrying only a `ProductId`. -/
def dItemC2 : Jdict := [("Code", JVal.str "A-1"), ("ProductId", JVal.num 6)]

/-- The record served for id 6: its code is `B-2`, not `A-1`. -/
def dOtherC2 : Jdict :=
  [("ProductId", JVal.num 6), ("Code", JVal.str "B-2"), ("DescriptionLong", JVal.str "ficha")]

/-- Backend where searching `A-1` finds a matching stub item that delegates by
    `ProductId` to a record whose code differs. -/
def bC2 : Backend :=
  ⟨fun ep pid =>
    if ep = BASE ++ "/Products/View" ∧ pid = 6 then
      FetchResult.ok 200 true (some (JVal.obj dOtherC2)) false
    else FetchResult.err,
   fun _ => none,
   fun ep pk c =>
    if ep = BASE ++ "/Products/Search" ∧ pk = "q" ∧ c = "A-1" then
      FetchResult.ok 200 true (some (JVal.arr [JVal.obj dItemC2])) false
    else FetchResult.err⟩

/-- A response carrying only an identifier: no code, no description. -/
def dC4 : Jdict := [("ProductId", JVal.num 9)]

/-- Backend answering the first view endpoint for id 9 with `dC4`. -/
def bC4 : Backend :=
  ⟨fun ep pid =>
    if ep = BASE ++ "/Products/View" ∧ pid = 9 then
      FetchResult.ok 200 true (some (JVal.obj dC4)) false
    else FetchResult.err,
   fun _ => none,
   fun _ _ _ => FetchResult.err⟩

/-- The session state after resolving and caching `dC4` (only `by_pid` is
    filled: the record has no code). -/
def stC10 : AppState := ⟨[], [(9, compact_product dC4)], []⟩

/-! ## Lemmas about normalization -/

theorem toNat_ofNat32 (n : Nat) : (UInt32.ofNat n).toNat = n % UInt32.size := by
  simp [UInt32.ofNat, UInt32.toNat, Fin.ofNat]

theorem upChar_toNat_of_lower (c : Char) (h : 97 ≤ c.toNat ∧ c.toNat ≤ 122) :
    (upChar c).toNat = c.toNat - 32 := by
  unfold upChar
  rw [dif_pos h]
  show (UInt32.ofNat (c.toNat - 32)).toNat = c.toNat - 32
  have hs : UInt32.size = 4294967296 := rfl
  rw [toNat_ofNat32]
  exact Nat.mod_eq_of_lt (by omega)

theorem upChar_eq_self (c : Char) (h : ¬(97 ≤ c.toNat ∧ c.toNat ≤ 122)) : upChar c = c := by
  unfold upChar
  rw [dif_neg h]

theorem upChar_idem (c : Char) : upChar (upChar c) = upChar c := by
  by_cases h : 97 ≤ c.toNat ∧ c.toNat ≤ 122
  · have ht := upChar_toNat_of_lower c h
    exact upChar_eq_self _ (by omega)
  · simp [upChar_eq_self c h]

theorem char_eq_iff_toNat (c d : Char) : c = d ↔ c.toNat = d.toNat := by
  constructor
  · intro h; rw [h]
  · intro h
    have hv : c.val.toNat = d.val.toNat := h
    have : c.val = d.val := by
      apply UInt32.toNat.inj
      exact hv
    cases c; cases d
    simp_all

theorem isWs_toNat (c : Char) :
    isWs c = true ↔ (c.toNat = 32 ∨ c.toNat = 9 ∨ c.toNat = 10 ∨ c.toNat = 13 ∨
      c.toNat = 11 ∨ c.toNat = 12) := by
  unfold isWs
  simp only [Bool.or_eq_true, beq_iff_eq]
  constructor
  · rintro (((((h | h) | h) | h) | h) | h) <;> subst h <;> simp [Char.toNat]
  · rintro (h | h | h | h | h | h) <;>
      [skip; skip; skip; skip; skip; skip] <;>
      first
        | (left; left; left; left; left; exact (char_eq_iff_toNat c ' ').mpr (by simpa using h))
        | (left; left; left; left; right; exact (char_eq_iff_toNat c '\t').mpr (by simpa using h))
        | (left; left; left; right; exact (char_eq_iff_toNat c '\n').mpr (by simpa using h))
        | (left; left; right; exact (char_eq_iff_toNat c '\x0d').mpr (by simpa using h))
        | (left; right; exact (char_eq_iff_toNat c '\x0b').mpr (by simpa using h))
        | (right; exact (char_eq_iff_toNat c '\x0c').mpr (by simpa using h))

theorem isWs_upChar (c : Char) : isWs (upChar c) = isWs c := by
  by_cases h : 97 ≤ c.toNat ∧ c.toNat ≤ 122
  · have ht := upChar_toNat_of_lower c h
    have h1 : isWs (upChar c) = false := by
      by_contra hb
      have := (isWs_toNat (upChar c)).mp (by revert hb; cases isWs (upChar c) <;> simp)
      omega
    have h2 : isWs c = false := by
      by_contra hb
      have := (isWs_toNat c).mp (by revert hb; cases isWs c <;> simp)
      omega
    rw [h1, h2]
  · rw [upChar_eq_self c h]

theorem dropWhile_idem (p : α → Bool) (l : List α) :
    List.dropWhile p (List.dropWhile p l) = List.dropWhile p l := by
  induction l with
  | nil => rfl
  | cons a t ih =>
    by_cases h : p a
    · simp [List.dropWhile_cons, h, ih]
    · simp [List.dropWhile_cons, h]

theorem dropWhile_of_head_false (p : α → Bool) (a : α) (t : List α) (h : p a = false) :
    List.dropWhile p (a :: t) = a :: t := by
  simp [List.dropWhile_cons, h]

theorem dropWhile_head_false (p : α → Bool) (l : List α) (a : α) (t : List α)
    (h : List.dropWhile p l = a :: t) : p a = false := by
  induction l with
  | nil => simp [List.dropWhile] at h
  | cons x xs ih =>
    rw [List.dropWhile_cons] at h
    by_cases hx : p x
    · rw [if_pos hx] at h; exact ih h
    · rw [if_neg hx] at h
      cases h
      simpa using hx

/-- The result of `pyStrip` starts with a non-whitespace character (when nonempty),
    so stripping the front again is the identity. -/
theorem dropWhile_pyStrip (l : List Char) :
    List.dropWhile isWs (pyStrip l) = pyStrip l := by
  unfold pyStrip
  cases hA : List.dropWhile isWs l with
  | nil => simp
  | cons a t =>
    have ha : isWs a = false := dropWhile_head_false isWs l a t hA
    have hrev : (a :: t).reverse = t.reverse ++ [a] := by simp
    rw [hrev, List.dropWhile_append]
    by_cases he : (List.dropWhile isWs t.reverse).isEmpty
    · simp only [he, if_true]
      rw [List.dropWhile_cons]
      simp [ha]
    · simp only [he]
      rw [if_neg (by simp : ¬(false = true))]
      rw [List.reverse_append]
      simp only [List.reverse_cons, List.reverse_nil, List.nil_append, List.singleton_append]
      exact dropWhile_of_head_false _ _ _ ha

theorem pyStrip_idem (l : List Char) : pyStrip (pyStrip l) = pyStrip l := by
  have h1 : List.dropWhile isWs (pyStrip l) = pyStrip l := dropWhile_pyStrip l
  show (((List.dropWhile isWs (pyStrip l)).reverse).dropWhile isWs).reverse = pyStrip l
  rw [h1]
  have h2 : (pyStrip l).reverse = List.dropWhile isWs ((List.dropWhile isWs l).reverse) := by
    unfold pyStrip
    rw [List.reverse_reverse]
  rw [h2, dropWhile_idem, ← h2, List.reverse_reverse]

theorem isWs_comp_upChar : (fun c => isWs (upChar c)) = isWs := funext isWs_upChar

theorem pyStrip_map_upChar (l : List Char) :
    pyStrip (l.map upChar) = (pyStrip l).map upChar := by
  unfold pyStrip
  rw [List.dropWhile_map, show (isWs ∘ upChar) = isWs from funext isWs_upChar,
    ← List.map_reverse, List.dropWhile_map,
    show (isWs ∘ upChar) = isWs from funext isWs_upChar, ← List.map_reverse]

theorem map_upChar_idem (l : List Char) :
    (l.map upChar).map upChar = l.map upChar := by
  rw [List.map_map]
  exact List.map_congr_left (fun a _ => upChar_idem a)

/-- Normalization is idempotent. -/
theorem normalize_model_idem (s : String) :
    normalize_model (normalize_model s) = normalize_model s := by
  unfold normalize_model
  show String.mk ((pyStrip ((pyStrip s.data).map upChar)).map upChar) = _
  rw [pyStrip_map_upChar, pyStrip_idem, map_upChar_idem]

theorem stripCI_length (pat : List Char) :
    ∀ s r, stripCI pat s = some r → s.length = pat.length + r.length := by
  induction pat with
  | nil => intro s r h; simp [stripCI] at h; subst h; simp
  | cons p ps ih =>
    intro s r h
    cases s with
    | nil => simp [stripCI] at h
    | cons c cs =>
      rw [stripCI] at h
      by_cases hc : c.toLower = p
      · rw [if_pos hc] at h
        have := ih cs r h
        simp [this]
        omega
      · rw [if_neg hc] at h
        exact absurd h (by simp)

theorem takeDigits_length : ∀ s, s.length = (takeDigits s).1.length + (takeDigits s).2.length := by
  intro s
  induction s with
  | nil => simp [takeDigits]
  | cons c cs ih =>
    rw [takeDigits]
    by_cases hc : c.isDigit
    · simp only [if_pos hc]
      show (c :: cs).length = (c :: (takeDigits cs).1).length + (takeDigits cs).2.length
      simp only [List.length_cons]
      omega
    · simp [if_neg hc]

theorem matchProductUrl_rest_lt (s : List Char) (u : String) (n : Nat) (rest : List Char)
    (h : matchProductUrl s = some (u, n, rest)) : rest.length < s.length := by
  unfold matchProductUrl at h
  cases h1 : stripCI "http".data s with
  | none => rw [h1] at h; exact absurd h (by simp)
  | some s1 =>
    rw [h1] at h
    have l1 := stripCI_length _ _ _ h1
    simp only at h
    set s2 := (match s1 with
      | c :: cs => if c.toLower = 's' then cs else s1
      | [] => s1) with hs2
    have l2 : s2.length ≤ s1.length := by
      rw [hs2]
      cases s1 with
      | nil => simp
      | cons c cs =>
        by_cases hc : c.toLower = 's'
        · simp [if_pos hc]
        · simp [if_neg hc]
    cases h3 : stripCI "://".data s2 with
    | none => rw [h3] at h; exact absurd h (by simp)
    | some s3 =>
      rw [h3] at h
      have l3 := stripCI_length _ _ _ h3
      simp only at h
      set s4 := (match stripCI "www.".data s3 with
        | some r => r
        | none => s3) with hs4
      have l4 : s4.length ≤ s3.length := by
        rw [hs4]
        cases h4 : stripCI "www.".data s3 with
        | none => simp
        | some r =>
          have := stripCI_length _ _ _ h4
          simp
          omega
      cases h5 : stripCI hostPath s4 with
      | none => rw [h5] at h; exact absurd h (by simp)
      | some s5 =>
        rw [h5] at h
        simp only at h
        have l5 := stripCI_length _ _ _ h5
        have l6 := takeDigits_length s5
        cases h6 : takeDigits s5 with
        | mk ds rest6 =>
          rw [h6] at h
          cases ds with
          | nil => exact absurd h (by simp)
          | cons d ds0 =>
            simp only at h
            have : rest6 = rest := by
              have := congrArg (fun x => x.2.2) (Option.some.inj h)
              simpa using this
            subst this
            rw [h6] at l6
            simp only [hostPath] at l5
            simp at l1 l3 l5 l6
            omega

/-! ## Resolver lemmas and claims C3, C5, C4, C2 -/

theorem fetchIdAttempts_err (b : Backend) (pid : Int)
    (hp : ∀ ep, b.postId ep pid = FetchResult.err) (hs : b.scrape pid = none) :
    ∀ eps, fetchIdAttempts b pid eps = none := by
  intro eps
  induction eps with
  | nil => simp [fetchIdAttempts, hs]
  | cons ep rest ih => simp [fetchIdAttempts, hp ep, parseIdBody, ih]

theorem fetchCodeAttempts_err (b : Backend) (code : String)
    (hs : ∀ ep pk, b.search ep pk code = FetchResult.err) :
    ∀ atts, fetchCodeAttempts b code atts = none := by
  intro atts
  induction atts with
  | nil => rfl
  | cons a rest ih =>
    cases a with
    | mk ep pk => simp [fetchCodeAttempts, codeAttempt, hs ep pk, ih]

/-- C5: the resolvers are total functions of the backend — every network or
    parse failure of a candidate attempt is local, and when every candidate
    fails (all calls raise, and for the id resolver the page fallback also
    yields nothing) they return not-found (`none`) instead of propagating an
    exception. -/
theorem C5_resolvers_total (b : Backend) (pid : Int) (code : String) :
    ((∀ ep, b.postId ep pid = FetchResult.err) → b.scrape pid = none →
      fetch_product_json_by_product_id b pid = none)
    ∧ ((∀ ep pk, b.search ep pk code = FetchResult.err) →
      fetch_product_json_by_code b code = none) := by
  constructor
  · intro hp hs
    exact fetchIdAttempts_err b pid hp hs byIdEndpoints
  · intro hs
    exact fetchCodeAttempts_err b code hs searchAttempts

theorem C5_resolvers_total_witness :
    fetch_product_json_by_product_id bAllErr 7 = none
    ∧ fetch_product_json_by_code bAllErr "LM108-V2" = none :=
  ⟨(C5_resolvers_total bAllErr 7 "LM108-V2").1 (fun _ => rfl) rfl,
   (C5_resolvers_total bAllErr 7 "LM108-V2").2 (fun _ _ => rfl)⟩

/-- C3: `fetch_product_json_by_code` traverses the ordered attempt sequence:
    it equals the chain over `searchAttempts`; a failed attempt (one that
    yields no result) is skipped, moving on to the next candidate; the chain
    short-circuits at the first attempt that yields a result; and an empty
    chain ends in not-found. -/
theorem C3_attempt_chain (b : Backend) (code : String) :
    fetch_product_json_by_code b code = fetchCodeAttempts b code searchAttempts
    ∧ (∀ ep pk atts, codeAttempt b code ep pk = none →
        fetchCodeAttempts b code ((ep, pk) :: atts) = fetchCodeAttempts b code atts)
    ∧ (∀ ep pk atts r, codeAttempt b code ep pk = some r →
        fetchCodeAttempts b code ((ep, pk) :: atts) = r)
    ∧ fetchCodeAttempts b code [] = none := by
  refine ⟨rfl, ?_, ?_, rfl⟩
  · intro ep pk atts h
    simp [fetchCodeAttempts, h]
  · intro ep pk atts r h
    simp [fetchCodeAttempts, h]

theorem C3_attempt_chain_witness :
    fetchCodeAttempts bT "A-1" ((BASE ++ "/api/products/search", "q") :: []) =
      fetchCodeAttempts bT "A-1" []
    ∧ fetchCodeAttempts bT "A-1" ((BASE ++ "/Products/Search", "q") :: []) = some dT :=
  ⟨(C3_attempt_chain bT "A-1").2.1 _ _ _ rfl,
   (C3_attempt_chain bT "A-1").2.2.1 _ _ _ _ rfl⟩

theorem validById_some (v : JVal) (d : Jdict) (h : validById v = some d) :
    (hasKey d "Code" || hasKey d "ProductId" || hasKey d "DescriptionLong") = true := by
  cases v with
  | obj d0 =>
    rw [validById] at h
    split at h
    next hc =>
      cases Option.some.inj h
      exact hc
    next => exact Option.noConfusion h
  | null => exact Option.noConfusion h
  | bool b => exact Option.noConfusion h
  | num n => exact Option.noConfusion h
  | str s => exact Option.noConfusion h
  | arr xs => exact Option.noConfusion h

theorem fetchIdAttempts_sound (b : Backend) (pid : Int) (d : Jdict) :
    ∀ eps, fetchIdAttempts b pid eps = some d →
      (hasKey d "Code" || hasKey d "ProductId" || hasKey d "DescriptionLong") = true
      ∨ b.scrape pid = some d := by
  intro eps
  induction eps with
  | nil => intro h; exact Or.inr h
  | cons ep rest ih =>
    intro h
    rw [fetchIdAttempts] at h
    cases hv : (parseIdBody (b.postId ep pid)).bind validById with
    | some d0 =>
      rw [hv] at h
      cases Option.some.inj h
      rcases Option.bind_eq_some.mp hv with ⟨v, _, hv2⟩
      exact Or.inl (validById_some v _ hv2)
    | none =>
      rw [hv] at h
      exact ih h

/-- C4 fails as stated: a response carrying only an identifier — no code and
    no description — is returned as a product record instead of not-found. -/
theorem C4_counterexample :
    fetch_product_json_by_product_id bC4 9 = some dC4
    ∧ hasKey dC4 "Code" = false ∧ hasKey dC4 "DescriptionLong" = false :=
  ⟨rfl, rfl, rfl⟩

/-- C4 amended: `resolve_by_id` returns not-found when the response is
    missing or malformed or the parsed dict has *none* of `Code`,
    `ProductId`, `DescriptionLong` — the check is a disjunction, not
    "identifier together with code or description"; and the page-scrape
    fallback returns its embedded object without any field validation. -/
theorem C4_min_fields (b : Backend) (pid : Int) (d : Jdict)
    (h : fetch_product_json_by_product_id b pid = some d) :
    (hasKey d "Code" || hasKey d "ProductId" || hasKey d "DescriptionLong") = true
    ∨ b.scrape pid = some d :=
  fetchIdAttempts_sound b pid d byIdEndpoints h

theorem C4_min_fields_witness :
    (hasKey dC4 "Code" || hasKey dC4 "ProductId" || hasKey dC4 "DescriptionLong") = true
    ∨ bC4.scrape 9 = some dC4 :=
  C4_min_fields bC4 9 dC4 rfl

theorem scanListItems_sound (b : Backend) (code : String) (d : Jdict) :
    ∀ items, scanListItems b code items = some (some d) →
      itemCodeKey d = normalize_model code
      ∨ ∃ pid, fetch_product_json_by_product_id b pid = some d := by
  intro items
  induction items with
  | nil => intro h; exact Option.noConfusion h
  | cons item rest ih =>
    intro h
    cases item with
    | obj d0 =>
      rw [scanListItems] at h
      by_cases hm : itemCodeKey d0 = normalize_model code
      · rw [if_pos hm] at h
        by_cases hdl : hasKey d0 "DescriptionLong"
        · rw [if_pos hdl] at h
          cases Option.some.inj h
          exact Or.inl hm
        · rw [if_neg hdl] at h
          by_cases ht : jTruthy (pyOr (jgetv d0 "ProductId") (jgetv d0 "Id"))
          · rw [if_pos ht] at h
            cases hp : pyInt (pyOr (jgetv d0 "ProductId") (jgetv d0 "Id")) with
            | some n =>
              rw [hp] at h
              exact Or.inr ⟨n, Option.some.inj h⟩
            | none =>
              rw [hp] at h
              exact Option.noConfusion h
          · rw [if_neg ht] at h
            exact ih h
      · rw [if_neg hm] at h
        exact ih h
    | null => exact ih h
    | bool b0 => exact ih h
    | num n0 => exact ih h
    | str s0 => exact ih h
    | arr xs0 => exact ih h

theorem scanDictItems_sound (b : Backend) (code : String) (d : Jdict) :
    ∀ items, scanDictItems b code items = some (some d) →
      ∃ pid, fetch_product_json_by_product_id b pid = some d := by
  intro items
  induction items with
  | nil => intro h; exact Option.noConfusion h
  | cons item rest ih =>
    intro h
    cases item with
    | obj d0 =>
      rw [scanDictItems] at h
      by_cases hm : itemCodeKey d0 = normalize_model code
      · rw [if_pos hm] at h
        by_cases ht : jTruthy (pyOr (jgetv d0 "ProductId") (jgetv d0 "Id"))
        · rw [if_pos ht] at h
          cases hp : pyInt (pyOr (jgetv d0 "ProductId") (jgetv d0 "Id")) with
          | some n =>
            rw [hp] at h
            exact ⟨n, Option.some.inj h⟩
          | none =>
            rw [hp] at h
            exact Option.noConfusion h
        · rw [if_neg ht] at h
          exact ih h
      · rw [if_neg hm] at h
        exact ih h
    | null => exact ih h
    | bool b0 => exact ih h
    | num n0 => exact ih h
    | str s0 => exact ih h
    | arr xs0 => exact ih h

theorem codeAttempt_sound (b : Backend) (code : String) (ep pk : String) (d : Jdict)
    (h : codeAttempt b code ep pk = some (some d)) :
    itemCodeKey d = normalize_model code
    ∨ ∃ pid, fetch_product_json_by_product_id b pid = some d := by
  rw [codeAttempt] at h
  cases hr : b.search ep pk code with
  | err =>
    rw [hr] at h
    exact Option.noConfusion h
  | ok status ctJson body braced =>
    rw [hr] at h
    simp only at h
    by_cases hst : status ≠ 200
    · rw [if_pos hst] at h
      exact Option.noConfusion h
    · rw [if_neg hst] at h
      by_cases hct : (!ctJson) = true
      · rw [if_pos hct] at h
        exact Option.noConfusion h
      · rw [if_neg hct] at h
        cases body with
        | none => exact Option.noConfusion h
        | some v =>
          cases v with
          | arr items => exact scanListItems_sound b code d items h
          | obj d1 =>
            simp only at h
            cases hres : getResults d1 with
            | arr items =>
              rw [hres] at h
              simp only at h
              rcases scanDictItems_sound b code d items h with ⟨pid, hp⟩
              exact Or.inr ⟨pid, hp⟩
            | null => rw [hres] at h; exact Option.noConfusion h
            | bool b0 => rw [hres] at h; exact Option.noConfusion h
            | num n0 => rw [hres] at h; exact Option.noConfusion h
            | str s0 => rw [hres] at h; exact Option.noConfusion h
            | obj d2 => rw [hres] at h; exact Option.noConfusion h
          | null => exact Option.noConfusion h
          | bool b0 => exact Option.noConfusion h
          | num n0 => exact Option.noConfusion h
          | str s0 => exact Option.noConfusion h

theorem fetchCodeAttempts_sound (b : Backend) (code : String) (d : Jdict) :
    ∀ atts, fetchCodeAttempts b code atts = some d →
      itemCodeKey d = normalize_model code
      ∨ ∃ pid, fetch_product_json_by_product_id b pid = some d := by
  intro atts
  induction atts with
  | nil => intro h; exact Option.noConfusion h
  | cons a rest ih =>
    intro h
    cases a with
    | mk ep pk =>
      rw [fetchCodeAttempts] at h
      cases ha : codeAttempt b code ep pk with
      | some r =>
        rw [ha] at h
        cases h
        exact codeAttempt_sound b code ep pk d ha
      | none =>
        rw [ha] at h
        exact ih h

/-- C2 fails as stated: the search finds an item whose code matches the
    query, but resolution is delegated through that item's `ProductId`, and
    the record returned by the by-id endpoint has a different code. -/
theorem C2_counterexample :
    fetch_product_json_by_code bC2 "A-1" = some dOtherC2
    ∧ ¬ itemCodeKey dOtherC2 = normalize_model "A-1" := by
  constructor
  · rfl
  · decide

/-- C2 amended: when `resolve_by_code` returns a record, either the record's
    normalized code equals the normalized query (the case where the matched
    search item itself is returned), or the record was obtained by delegating
    a code-matching search item's `ProductId` to `resolve_by_id`, whose
    answer is returned without re-checking the code. -/
theorem C2_code_match_or_delegated (b : Backend) (code : String) (d : Jdict)
    (h : fetch_product_json_by_code b code = some d) :
    itemCodeKey d = normalize_model code
    ∨ ∃ pid, fetch_product_json_by_product_id b pid = some d :=
  fetchCodeAttempts_sound b code d searchAttempts h

theorem C2_code_match_or_delegated_witness :
    itemCodeKey dT = normalize_model "A-1"
    ∨ ∃ pid, fetch_product_json_by_product_id bT pid = some dT :=
  C2_code_match_or_delegated bT "A-1" dT rfl

/-! ## Session-memory lemmas and claim C6 -/

theorem cache_product_by_code_eq (prod : Jdict) (st : AppState) :
    (cache_product prod st).1.by_code =
      if prodKey (compact_product prod) ≠ "" then
        dictInsert st.by_code (prodKey (compact_product prod)) (compact_product prod)
      else st.by_code := by
  unfold cache_product
  simp only []
  by_cases hc : prodKey (compact_product prod) ≠ ""
  · simp only [if_pos hc]
    split
    · rfl
    · split
      · rfl
      · rfl
  · simp only [if_neg hc]
    split
    · rfl
    · split
      · rfl
      · rfl

theorem cache_product_lp_cases (prod : Jdict) (st : AppState) :
    ((cache_product prod st).2 = true
      ∧ (cache_product prod st).1.last_products = st.last_products)
    ∨ ((cache_product prod st).2 = false
      ∧ (cache_product prod st).1.last_products =
        (if prodKey (compact_product prod) ≠ "" then
          (prodKey (compact_product prod) ::
            st.last_products.filter (fun c => c ≠ prodKey (compact_product prod))).take 5
        else st.last_products)) := by
  unfold cache_product
  simp only []
  split
  · right
    refine ⟨rfl, ?_⟩
    by_cases hc : prodKey (compact_product prod) ≠ ""
    · simp only [if_pos hc]
    · simp only [if_neg hc]
  · split
    · left
      refine ⟨rfl, ?_⟩
      by_cases hc : prodKey (compact_product prod) ≠ ""
      · simp only [if_pos hc]
      · simp only [if_neg hc]
    · right
      refine ⟨rfl, ?_⟩
      by_cases hc : prodKey (compact_product prod) ≠ ""
      · simp only [if_pos hc]
      · simp only [if_neg hc]

theorem cache_product_lp_raised (prod : Jdict) (st : AppState)
    (hb : (cache_product prod st).2 = true) :
    (cache_product prod st).1.last_products = st.last_products := by
  rcases cache_product_lp_cases prod st with ⟨_, h⟩ | ⟨hb2, _⟩
  · exact h
  · rw [hb2] at hb
    exact Bool.noConfusion hb

theorem cache_product_lp_ok (prod : Jdict) (st : AppState)
    (hb : (cache_product prod st).2 = false) :
    (cache_product prod st).1.last_products =
      (if prodKey (compact_product prod) ≠ "" then
        (prodKey (compact_product prod) ::
          st.last_products.filter (fun c => c ≠ prodKey (compact_product prod))).take 5
      else st.last_products) := by
  rcases cache_product_lp_cases prod st with ⟨hb2, _⟩ | ⟨_, h⟩
  · rw [hb2] at hb
    exact Bool.noConfusion hb
  · exact h

theorem dictLookup_insert_ne {β : Type} (m : List (String × β)) (k k' : String) (v : β)
    (h : k ≠ k') : dictLookup (dictInsert m k v) k' = dictLookup m k' := by
  induction m with
  | nil => simp [dictInsert, dictLookup, h]
  | cons kv rest ih =>
    cases kv with
    | mk k0 v0 =>
      by_cases h0 : k0 = k
      · subst h0
        simp [dictInsert, dictLookup, h]
      · simp only [dictInsert, if_neg h0]
        by_cases h1 : k0 = k'
        · simp [dictLookup, h1]
        · simp [dictLookup, h1, ih]

theorem dictLookup_mem {β : Type} (m : List (String × β)) (k : String) (v : β)
    (h : dictLookup m k = some v) : (k, v) ∈ m := by
  induction m with
  | nil => exact Option.noConfusion h
  | cons kv rest ih =>
    cases kv with
    | mk k0 v0 =>
      rw [dictLookup] at h
      by_cases h0 : k0 = k
      · rw [if_pos h0] at h
        cases Option.some.inj h
        subst h0
        exact List.mem_cons_self _ _
      · rw [if_neg h0] at h
        exact List.mem_cons_of_mem _ (ih h)

theorem mem_dictInsert {β : Type} (P : String × β → Prop) (m : List (String × β))
    (k : String) (v : β) (hm : ∀ kp ∈ m, P kp) (hv : P (k, v)) :
    ∀ kp ∈ dictInsert m k v, P kp := by
  induction m with
  | nil =>
    intro kp hkp
    rw [dictInsert] at hkp
    rcases List.mem_singleton.mp hkp with h
    subst h
    exact hv
  | cons kv rest ih =>
    cases kv with
    | mk k0 v0 =>
      intro kp hkp
      rw [dictInsert] at hkp
      by_cases h0 : k0 = k
      · rw [if_pos h0] at hkp
        rcases List.mem_cons.mp hkp with h | h
        · subst h; exact hv
        · exact hm _ (List.mem_cons_of_mem _ h)
      · rw [if_neg h0] at hkp
        rcases List.mem_cons.mp hkp with h | h
        · subst h; exact hm _ (List.mem_cons_self _ _)
        · exact ih (fun kp hk => hm _ (List.mem_cons_of_mem _ hk)) _ h

theorem cache_product_lp_len (prod : Jdict) (st : AppState)
    (h : st.last_products.length ≤ 5) :
    (cache_product prod st).1.last_products.length ≤ 5 := by
  cases hb : (cache_product prod st).2 with
  | true => rw [cache_product_lp_raised prod st hb]; exact h
  | false =>
    rw [cache_product_lp_ok prod st hb]
    by_cases hc : prodKey (compact_product prod) ≠ ""
    · rw [if_pos hc, List.length_take]
      exact min_le_left _ _
    · rw [if_neg hc]; exact h

theorem rememberAll_lookup_none (c : String) :
    ∀ (prods : List Jdict) (st : AppState),
      dictLookup st.by_code (normalize_model c) = none →
      (∀ p ∈ prods, prodKey (compact_product p) ≠ normalize_model c) →
      dictLookup ((prods.foldl (fun s p => (cache_product p s).1) st)).by_code
        (normalize_model c) = none := by
  intro prods
  induction prods with
  | nil => intro st h _; exact h
  | cons p rest ih =>
    intro st h hall
    rw [List.foldl_cons]
    apply ih
    · rw [cache_product_by_code_eq p st]
      by_cases hc : prodKey (compact_product p) ≠ ""
      · rw [if_pos hc]
        rw [dictLookup_insert_ne _ _ _ _ (hall p (List.mem_cons_self _ _))]
        exact h
      · rw [if_neg hc]; exact h
    · intro q hq
      exact hall q (List.mem_cons_of_mem _ hq)

/-- C6 fails as stated: `remember`ing a record whose `Code` is missing (or
    empty) does **not** move its normalized code to the front of the MRU
    list — the list is left untouched, so its front is still the previously
    remembered code, not the new record's (empty) normalized code. -/
theorem C6_counterexample :
    (cache_product [] ((cache_product [("Code", JVal.str "A-1")] init_state).1)).1.last_products
      = ["A-1"]
    ∧ prodKey (compact_product []) = ""
    ∧ ¬ ((cache_product [] ((cache_product [("Code", JVal.str "A-1")] init_state).1)).1.last_products).head?
        = some (prodKey (compact_product [])) := by
  refine ⟨rfl, rfl, ?_⟩
  intro h
  exact absurd (Option.some.inj h) (by decide)

/-- C6 amended: after any sequence of `remember` calls the MRU list holds at
    most 5 entries and a code never remembered resolves to nothing; a call
    whose record has a **nonempty** normalized code and does not raise on
    `int(ProductId)` moves that code to the front (removing any earlier
    occurrence, truncating to 5); a call whose record has an empty or missing
    code leaves the MRU list unchanged. -/
theorem C6_mru_bounded (prods : List Jdict) (c : String)
    (hc : ∀ p ∈ prods, prodKey (compact_product p) ≠ normalize_model c) :
    (rememberAll prods).last_products.length ≤ 5
    ∧ get_cached_by_code c (rememberAll prods) = none
    ∧ (∀ prod st, prodKey (compact_product prod) ≠ "" → (cache_product prod st).2 = false →
        (cache_product prod st).1.last_products =
          (prodKey (compact_product prod) ::
            st.last_products.filter (fun x => x ≠ prodKey (compact_product prod))).take 5)
    ∧ (∀ prod st, prodKey (compact_product prod) = "" →
        (cache_product prod st).1.last_products = st.last_products) := by
  refine ⟨?_, ?_, ?_, ?_⟩
  · have : ∀ (l : List Jdict) (st : AppState), st.last_products.length ≤ 5 →
        (l.foldl (fun s p => (cache_product p s).1) st).last_products.length ≤ 5 := by
      intro l
      induction l with
      | nil => intro st h; exact h
      | cons p rest ih =>
        intro st h
        rw [List.foldl_cons]
        exact ih _ (cache_product_lp_len p st h)
    exact this prods init_state (by simp [init_state])
  · exact rememberAll_lookup_none c prods init_state rfl hc
  · intro prod st hk hb
    rw [cache_product_lp_ok prod st hb, if_pos hk]
  · intro prod st hk
    cases hb : (cache_product prod st).2 with
    | true => exact cache_product_lp_raised prod st hb
    | false =>
      rw [cache_product_lp_ok prod st hb, if_neg (by simpa using hk)]

theorem C6_mru_bounded_witness :
    (rememberAll [dT]).last_products.length ≤ 5
    ∧ get_cached_by_code "Z-9" (rememberAll [dT]) = none
    ∧ (cache_product dT init_state).1.last_products =
        (prodKey (compact_product dT) ::
          init_state.last_products.filter (fun x => x ≠ prodKey (compact_product dT))).take 5
    ∧ (cache_product [] init_state).1.last_products = init_state.last_products := by
  have H := C6_mru_bounded [dT] "Z-9" (by
    intro p hp
    rw [List.mem_singleton] at hp
    subst hp
    decide)
  exact ⟨H.1, H.2.1, H.2.2.1 dT init_state (by decide) rfl, H.2.2.2 [] init_state rfl⟩

/-! ## Deduplication and state-invariant lemmas -/

theorem dedup_eq_self : ∀ (l : List CompactProduct) (seen : List String),
    ((l.map prodKey).Nodup) → (∀ p ∈ l, prodKey p ≠ "") → (∀ p ∈ l, prodKey p ∉ seen) →
    dedupByCode l seen = l := by
  intro l
  induction l with
  | nil => intro seen _ _ _; rfl
  | cons p rest ih =>
    intro seen hnd hne hns
    rw [List.map_cons] at hnd
    have hnd' := List.nodup_cons.mp hnd
    rw [dedupByCode,
      if_pos ⟨hne p (List.mem_cons_self _ _), hns p (List.mem_cons_self _ _)⟩]
    congr 1
    apply ih _ hnd'.2
    · intro q hq
      exact hne q (List.mem_cons_of_mem _ hq)
    · intro q hq hmem
      rcases List.mem_cons.mp hmem with h | h
      · exact hnd'.1 (h ▸ List.mem_map_of_mem prodKey hq)
      · exact hns q (List.mem_cons_of_mem _ hq) h

theorem dedup_props : ∀ (l : List CompactProduct) (seen : List String),
    (∀ p ∈ dedupByCode l seen, prodKey p ≠ "")
    ∧ (∀ k ∈ (dedupByCode l seen).map prodKey, k ∉ seen)
    ∧ ((dedupByCode l seen).map prodKey).Nodup := by
  intro l
  induction l with
  | nil =>
    intro seen
    exact ⟨by simp [dedupByCode], by simp [dedupByCode], by simp [dedupByCode]⟩
  | cons p rest ih =>
    intro seen
    rw [dedupByCode]
    by_cases hcond : prodKey p ≠ "" ∧ prodKey p ∉ seen
    · rw [if_pos hcond]
      have IH := ih (prodKey p :: seen)
      refine ⟨?_, ?_, ?_⟩
      · intro q hq
        rcases List.mem_cons.mp hq with h | h
        · subst h; exact hcond.1
        · exact IH.1 q h
      · intro k hk
        rw [List.map_cons] at hk
        rcases List.mem_cons.mp hk with h | h
        · subst h; exact hcond.2
        · intro hin
          exact IH.2.1 k h (List.mem_cons_of_mem _ hin)
      · rw [List.map_cons]
        apply List.nodup_cons.mpr
        refine ⟨?_, IH.2.2⟩
        intro hin
        exact IH.2.1 _ hin (List.mem_cons_self _ _)
    · rw [if_neg hcond]
      exact ih seen

theorem dedup_nil_of_empty_keys : ∀ (l : List CompactProduct) (seen : List String),
    (∀ p ∈ l, prodKey p = "") → dedupByCode l seen = [] := by
  intro l
  induction l with
  | nil => intro seen _; rfl
  | cons p rest ih =>
    intro seen hall
    rw [dedupByCode,
      if_neg (fun hcond => hcond.1 (hall p (List.mem_cons_self _ _)))]
    exact ih seen (fun q hq => hall q (List.mem_cons_of_mem _ hq))

theorem StateInv_init : StateInv init_state := by
  refine ⟨List.nodup_nil, ?_, ?_⟩ <;> intro x hx <;> simp [init_state] at hx

theorem cache_product_inv (prod : Jdict) (st : AppState) (h : StateInv st) :
    StateInv (cache_product prod st).1 := by
  obtain ⟨h1, h2, h3⟩ := h
  refine ⟨?_, ?_, ?_⟩
  · rcases cache_product_lp_cases prod st with ⟨_, hl⟩ | ⟨_, hl⟩
    · rw [hl]; exact h1
    · rw [hl]
      by_cases hc : prodKey (compact_product prod) ≠ ""
      · rw [if_pos hc]
        apply List.Nodup.sublist (List.take_sublist _ _)
        apply List.nodup_cons.mpr
        refine ⟨?_, h1.filter _⟩
        intro hmem
        have := (List.mem_filter.mp hmem).2
        simp at this
      · rw [if_neg hc]; exact h1
  · rcases cache_product_lp_cases prod st with ⟨_, hl⟩ | ⟨_, hl⟩
    · rw [hl]; exact h2
    · rw [hl]
      by_cases hc : prodKey (compact_product prod) ≠ ""
      · rw [if_pos hc]
        intro c hcmem
        have hcmem2 := List.mem_of_mem_take hcmem
        rcases List.mem_cons.mp hcmem2 with h | h
        · subst h
          refine ⟨hc, ?_⟩
          show normalize_model (normalize_model (pyStr (pyOr (compact_product prod).Code
            (JVal.str "")))) = _
          exact normalize_model_idem _
        · exact h2 c (List.mem_filter.mp h).1
      · rw [if_neg hc]; exact h2
  · rw [cache_product_by_code_eq]
    by_cases hc : prodKey (compact_product prod) ≠ ""
    · rw [if_pos hc]
      exact mem_dictInsert _ _ _ _ h3 rfl
    · rw [if_neg hc]; exact h3

theorem resolveUrlLoop_inv (b : Backend) : ∀ (urls : List (String × Nat)) (st : AppState)
    (acc : List CompactProduct) (res : AppState × List CompactProduct),
    StateInv st → resolveUrlLoop b urls st acc = some res → StateInv res.1 := by
  intro urls
  induction urls with
  | nil =>
    intro st acc res h hr
    cases Option.some.inj hr
    exact h
  | cons u rest ih =>
    intro st acc res h hr
    cases u with
    | mk url pid =>
      rw [resolveUrlLoop] at hr
      cases hcache : get_cached_by_pid (Int.ofNat pid) st with
      | some p =>
        rw [hcache] at hr
        exact ih st _ res h hr
      | none =>
        rw [hcache] at hr
        cases hf : fetch_product_json_by_product_id b (Int.ofNat pid) with
        | some d =>
          rw [hf] at hr
          simp only at hr
          by_cases hde : d.isEmpty = true
          · rw [if_pos hde] at hr
            exact ih st _ res h hr
          · rw [if_neg hde] at hr
            by_cases hrb : (cache_product d st).2 = true
            · rw [if_pos hrb] at hr
              exact Option.noConfusion hr
            · rw [if_neg hrb] at hr
              exact ih _ _ res (cache_product_inv d st h) hr
        | none =>
          rw [hf] at hr
          exact ih st _ res h hr

theorem resolveCodeLoop_inv (b : Backend) : ∀ (models : List String) (st : AppState)
    (acc : List CompactProduct) (res : AppState × List CompactProduct),
    StateInv st → resolveCodeLoop b models st acc = some res → StateInv res.1 := by
  intro models
  induction models with
  | nil =>
    intro st acc res h hr
    cases Option.some.inj hr
    exact h
  | cons code rest ih =>
    intro st acc res h hr
    rw [resolveCodeLoop] at hr
    cases hcache : get_cached_by_code code st with
    | some p =>
      rw [hcache] at hr
      exact ih st _ res h hr
    | none =>
      rw [hcache] at hr
      cases hf : fetch_product_json_by_code b code with
      | some d =>
        rw [hf] at hr
        simp only at hr
        by_cases hde : d.isEmpty = true
        · rw [if_pos hde] at hr
          exact ih st _ res h hr
        · rw [if_neg hde] at hr
          by_cases hrb : (cache_product d st).2 = true
          · rw [if_pos hrb] at hr
            exact Option.noConfusion hr
          · rw [if_neg hrb] at hr
            exact ih _ _ res (cache_product_inv d st h) hr
      | none =>
        rw [hf] at hr
        exact ih st _ res h hr

theorem resolveAll_inv (b : Backend) (urls : List (String × Nat)) (models : List String)
    (st : AppState) (res : AppState × List CompactProduct)
    (h : StateInv st) (hr : resolveAll b urls models st = some res) : StateInv res.1 := by
  unfold resolveAll at hr
  cases h1 : resolveUrlLoop b urls st [] with
  | none =>
    rw [h1] at hr
    exact Option.noConfusion hr
  | some pr =>
    rw [h1] at hr
    cases pr with
    | mk st1 ps1 =>
      simp only at hr
      exact resolveCodeLoop_inv b models st1 ps1 res
        (resolveUrlLoop_inv b urls st [] (st1, ps1) h h1) hr

theorem recall_aux (m : List (String × CompactProduct))
    (hm : ∀ kp ∈ m, prodKey kp.2 = kp.1) :
    ∀ (L : List String), L.Nodup → (∀ c ∈ L, c ≠ "" ∧ normalize_model c = c) →
    (∀ p ∈ L.filterMap (fun c => dictLookup m (normalize_model c)), prodKey p ≠ "")
    ∧ (∀ p ∈ L.filterMap (fun c => dictLookup m (normalize_model c)), prodKey p ∈ L)
    ∧ ((L.filterMap (fun c => dictLookup m (normalize_model c))).map prodKey).Nodup := by
  intro L
  induction L with
  | nil => intro _ _; exact ⟨by simp, by simp, by simp⟩
  | cons c L' ih =>
    intro hnd hall
    have hc := hall c (List.mem_cons_self _ _)
    have hnd' := List.nodup_cons.mp hnd
    have IH := ih hnd'.2 (fun x hx => hall x (List.mem_cons_of_mem _ hx))
    rw [List.filterMap_cons]
    cases hl : dictLookup m (normalize_model c) with
    | none =>
      exact ⟨IH.1, fun p hp => List.mem_cons_of_mem _ (IH.2.1 p hp), IH.2.2⟩
    | some p =>
      have hkey : prodKey p = c := by
        have hmem := dictLookup_mem m (normalize_model c) p hl
        have := hm _ hmem
        rw [this, hc.2]
      refine ⟨?_, ?_, ?_⟩
      · intro q hq
        rcases List.mem_cons.mp hq with h | h
        · subst h; rw [hkey]; exact hc.1
        · exact IH.1 q h
      · intro q hq
        rcases List.mem_cons.mp hq with h | h
        · subst h; rw [hkey]; exact List.mem_cons_self _ _
        · exact List.mem_cons_of_mem _ (IH.2.1 q h)
      · rw [List.map_cons]
        apply List.nodup_cons.mpr
        refine ⟨?_, IH.2.2⟩
        intro hin
        rcases List.mem_map.mp hin with ⟨q, hq1, hq2⟩
        have := IH.2.1 q hq1
        rw [hq2, hkey] at this
        exact hnd'.1 this

theorem recall_props (st : AppState) (h : StateInv st) :
    (∀ p ∈ get_last_products st, prodKey p ≠ "")
    ∧ ((get_last_products st).map prodKey).Nodup := by
  obtain ⟨h1, h2, h3⟩ := h
  have H := recall_aux st.by_code h3 st.last_products h1 h2
  exact ⟨H.1, H.2.2⟩

/-! ## Conversation-turn lemmas and claims C7, C10, C1, C9 -/

theorem processTurn_answered (b : Backend) (urls : List (String × Nat))
    (models : List String) (ga : Bool) (gr : GenResult) (st : AppState)
    (t : String) (qs : List CompactProduct) (st2 : AppState)
    (h : processTurn b urls models ga gr st = TurnResult.answered t qs st2) :
    ∃ st1 ps, resolveAll b urls models st = some (st1, ps)
      ∧ qs = dedupByCode (if ps.isEmpty then get_last_products st1 else ps) []
      ∧ qs ≠ [] ∧ t = genAnswer ga gr qs := by
  unfold processTurn at h
  cases hres : resolveAll b urls models st with
  | none =>
    rw [hres] at h
    exact TurnResult.noConfusion h
  | some pr =>
    cases pr with
    | mk st1 ps =>
      rw [hres] at h
      simp only at h
      by_cases hemp :
          (dedupByCode (if ps.isEmpty then get_last_products st1 else ps) []).isEmpty = true
      · rw [if_pos hemp] at h
        exact TurnResult.noConfusion h
      · rw [if_neg hemp] at h
        cases hc : cacheAll (dedupByCode (if ps.isEmpty then get_last_products st1 else ps) [])
            st1 with
        | none =>
          rw [hc] at h
          exact TurnResult.noConfusion h
        | some st2' =>
          rw [hc] at h
          rw [TurnResult.answered.injEq] at h
          obtain ⟨ht, hqs, _⟩ := h
          refine ⟨st1, ps, rfl, hqs.symm, ?_, ?_⟩
          · intro hq
            rw [hq] at hqs
            rw [hqs] at hemp
            simp at hemp
          · rw [← ht, hqs]

/-- C7: in a turn whose message resolves zero products (starting from a
    reachable session state), the recalled recent products become the
    effective product set of the answer branch, and when that recall is also
    empty the turn ends in the clarification message; an answer is never
    produced from an empty product set. -/
theorem C7_memory_fallback (b : Backend) (urls : List (String × Nat)) (models : List String)
    (ga : Bool) (gr : GenResult) (st st1 : AppState)
    (hInv : StateInv st)
    (hres : resolveAll b urls models st = some (st1, [])) :
    (get_last_products st1 = [] → processTurn b urls models ga gr st = TurnResult.clarified st1)
    ∧ (∀ t qs st2, processTurn b urls models ga gr st = TurnResult.answered t qs st2 →
        qs = get_last_products st1 ∧ qs ≠ []) := by
  have hInv1 : StateInv st1 := resolveAll_inv b urls models st (st1, []) hInv hres
  have hrp := recall_props st1 hInv1
  have hded : dedupByCode (get_last_products st1) [] = get_last_products st1 :=
    dedup_eq_self _ _ hrp.2 hrp.1 (by intro p _ hp; simp at hp)
  constructor
  · intro hnil
    unfold processTurn
    rw [hres]
    simp [hnil, dedupByCode]
  · intro t qs st2 hpt
    rcases processTurn_answered b urls models ga gr st t qs st2 hpt with
      ⟨st1', ps', hres', hqs, hne, _⟩
    rw [hres] at hres'
    rw [Option.some.injEq, Prod.mk.injEq] at hres'
    obtain ⟨he1, he2⟩ := hres'
    subst he1
    rw [← he2] at hqs
    simp only [List.isEmpty_nil, if_true] at hqs
    rw [hded] at hqs
    exact ⟨hqs, hne⟩

theorem C7_memory_fallback_witness :
    processTurn bAllErr [] [] true (GenResult.returns none) init_state =
      TurnResult.clarified init_state :=
  (C7_memory_fallback bAllErr [] [] true (GenResult.returns none) init_state init_state
    StateInv_init rfl).1 rfl

/-- C10 (implicit): the product set passed to answer generation is
    deduplicated by nonempty normalized code — every answered turn's product
    set has pairwise distinct, nonempty keys — and a turn all of whose
    resolved records lack a code ends in the clarification message even
    though resolution succeeded. -/
theorem C10_codeless_dropped :
    (∀ (b : Backend) (urls : List (String × Nat)) (models : List String) (ga : Bool)
       (gr : GenResult) (st st1 : AppState) (ps : List CompactProduct),
      resolveAll b urls models st = some (st1, ps) → ps ≠ [] →
      (∀ p ∈ ps, prodKey p = "") →
      processTurn b urls models ga gr st = TurnResult.clarified st1)
    ∧ (∀ (b : Backend) (urls : List (String × Nat)) (models : List String) (ga : Bool)
       (gr : GenResult) (st : AppState) (t : String) (qs : List CompactProduct)
       (st2 : AppState),
      processTurn b urls models ga gr st = TurnResult.answered t qs st2 →
      (∀ p ∈ qs, prodKey p ≠ "") ∧ (qs.map prodKey).Nodup) := by
  constructor
  · intro b urls models ga gr st st1 ps hres hne hall
    unfold processTurn
    rw [hres]
    simp only
    have hemp : ps.isEmpty = false := by
      cases ps with
      | nil => exact absurd rfl hne
      | cons p rest => rfl
    rw [hemp]
    simp only [Bool.false_eq_true, if_false]
    rw [dedup_nil_of_empty_keys ps [] hall]
    rfl
  · intro b urls models ga gr st t qs st2 hpt
    rcases processTurn_answered b urls models ga gr st t qs st2 hpt with
      ⟨st1, ps, _, hqs, _, _⟩
    have H := dedup_props (if ps.isEmpty then get_last_products st1 else ps) []
    rw [hqs]
    exact ⟨H.1, H.2.2⟩

theorem C10_codeless_dropped_witness :
    processTurn bC4 [("u", 9)] [] true (GenResult.returns none) init_state =
      TurnResult.clarified stC10 :=
  C10_codeless_dropped.1 bC4 [("u", 9)] [] true (GenResult.returns none) init_state stC10
    [compact_product dC4] rfl (by simp)
    (by
      intro p hp
      rw [List.mem_singleton] at hp
      subst hp
      rfl)

/-- C1 fails as stated: when the hosted generation call raises, the raw
    error string `Error al consultar Gemini: <exception>` is what the turn
    displays as the assistant's answer — it is not the rule-based fallback
    answer (which is only used when no model is configured). -/
theorem C1_counterexample :
    answerTextOf (processTurn bT [("u", 5)] [] true (GenResult.raises "boom") init_state)
      = some ("Error al consultar Gemini: boom")
    ∧ "Error al consultar Gemini: boom" ≠ ruleFallback (compact_product dT) := by
  constructor
  · rfl
  · decide

/-- C1 amended: with a model configured, the answered turn's text is always
    `ask_gemini`'s result — the fixed error-prefixed message when the call
    raises, the fixed apology when the stripped output is empty; the
    rule-based fallback (`products[0]` summary) is used exactly when no
    model is configured. -/
theorem C1_answer_text (b : Backend) (urls : List (String × Nat)) (models : List String)
    (gr : GenResult) (st : AppState) :
    (∀ t qs st2, processTurn b urls models true gr st = TurnResult.answered t qs st2 →
      t = ask_gemini gr)
    ∧ (∀ t q qs st2,
        processTurn b urls models false gr st = TurnResult.answered t (q :: qs) st2 →
        t = ruleFallback q)
    ∧ (∀ e, ask_gemini (GenResult.raises e) = "Error al consultar Gemini: " ++ e)
    ∧ (∀ s, pyStripStr s = "" → ask_gemini (GenResult.returns (some s)) =
        "No pude generar una respuesta. Probá reformular la pregunta.") := by
  refine ⟨?_, ?_, fun e => rfl, ?_⟩
  · intro t qs st2 h
    rcases processTurn_answered b urls models true gr st t qs st2 h with
      ⟨st1, ps, _, _, hne, ht⟩
    rw [ht]
    cases qs with
    | nil => exact absurd rfl hne
    | cons q qs' => rfl
  · intro t q qs st2 h
    rcases processTurn_answered b urls models false gr st t (q :: qs) st2 h with
      ⟨st1, ps, _, _, _, ht⟩
    rw [ht]
    rfl
  · intro s hs
    show (if pyStripStr ((some s).getD "") ≠ "" then _ else _) = _
    rw [if_neg (by simpa using hs)]

theorem C1_answer_text_witness :
    "Error al consultar Gemini: boom" = ask_gemini (GenResult.raises "boom")
    ∧ ask_gemini (GenResult.returns (some "  ")) =
        "No pude generar una respuesta. Probá reformular la pregunta." :=
  ⟨(C1_answer_text bT [("u", 5)] [] (GenResult.raises "boom") init_state).1 _ _ _ rfl,
   (C1_answer_text bT [] [] (GenResult.returns (some "  ")) init_state).2.2.2 "  " rfl⟩

/-- C9: `compact_product` is total on any dict and produces the fixed
    downstream field set, defaulting each absent field to empty string,
    null, or empty list (so no downstream consumer can fail on a missing
    optional field). -/
theorem C9_compact_total (d : Jdict) :
    (dictLookup d "ProductId" = none → (compact_product d).ProductId = JVal.null)
    ∧ (dictLookup d "Code" = none → dictLookup d "code" = none →
        (compact_product d).Code = JVal.null)
    ∧ (dictLookup d "DescriptionShort" = none →
        (compact_product d).DescriptionShort = JVal.str "")
    ∧ (dictLookup d "DescriptionLong" = none →
        (compact_product d).DescriptionLong = JVal.str "")
    ∧ (dictLookup d "Price" = none → (compact_product d).Price = JVal.null)
    ∧ (dictLookup d "Stock" = none → (compact_product d).Stock = JVal.null)
    ∧ (dictLookup d "Image" = none → (compact_product d).Image = JVal.null)
    ∧ (dictLookup d "DataSheet" = none → (compact_product d).DataSheet = JVal.null)
    ∧ (dictLookup d "Links" = none → (compact_product d).Links = JVal.arr []) := by
  refine ⟨?_, ?_, ?_, ?_, ?_, ?_, ?_, ?_, ?_⟩
  · intro h; simp [compact_product, jgetv, h]
  · intro h1 h2; simp [compact_product, jgetv, pyOr, jTruthy, h1, h2]
  · intro h; simp [compact_product, jgetv, pyOr, jTruthy, h]
  · intro h; simp [compact_product, jgetv, pyOr, jTruthy, h]
  · intro h; simp [compact_product, jgetv, h]
  · intro h; simp [compact_product, jgetv, h]
  · intro h; simp [compact_product, jgetv, h]
  · intro h; simp [compact_product, jgetv, h]
  · intro h; simp [compact_product, jgetv, pyOr, jTruthy, h]

theorem C9_compact_total_witness :
    (compact_product []).ProductId = JVal.null
    ∧ (compact_product []).Code = JVal.null
    ∧ (compact_product []).DescriptionShort = JVal.str ""
    ∧ (compact_product []).DescriptionLong = JVal.str ""
    ∧ (compact_product []).Price = JVal.null
    ∧ (compact_product []).Stock = JVal.null
    ∧ (compact_product []).Image = JVal.null
    ∧ (compact_product []).DataSheet = JVal.null
    ∧ (compact_product []).Links = JVal.arr [] := by
  have H := C9_compact_total []
  exact ⟨H.1 rfl, H.2.1 rfl rfl, H.2.2.1 rfl, H.2.2.2.1 rfl, H.2.2.2.2.1 rfl,
    H.2.2.2.2.2.1 rfl, H.2.2.2.2.2.2.1 rfl, H.2.2.2.2.2.2.2.1 rfl,
    H.2.2.2.2.2.2.2.2 rfl⟩

/-! ## `extract_urls` lemmas and claim C8 -/

theorem digitChar_isDigit (d : Nat) (h : d < 10) : (digitChar d).isDigit = true := by
  interval_cases d <;> decide

theorem digitChar_toNat (d : Nat) (h : d < 10) : (digitChar d).toNat = 48 + d := by
  interval_cases d <;> decide

theorem digitsToNat_append_one (ds : List Char) (c : Char) :
    digitsToNat (ds ++ [c]) = digitsToNat ds * 10 + (c.toNat - 48) := by
  unfold digitsToNat
  rw [List.foldl_append]
  rfl

theorem natDigits_spec (n : Nat) :
    natDigits n ≠ [] ∧ (∀ c ∈ natDigits n, c.isDigit = true)
    ∧ digitsToNat (natDigits n) = n := by
  induction n using Nat.strong_induction_on with
  | _ n ih =>
    rw [natDigits]
    by_cases h : n < 10
    · rw [dif_pos h]
      refine ⟨by simp, ?_, ?_⟩
      · intro c hc
        rw [List.mem_singleton] at hc
        subst hc
        exact digitChar_isDigit n h
      · show digitsToNat ([] ++ [digitChar n]) = n
        rw [digitsToNat_append_one, digitChar_toNat n h]
        show 0 * 10 + (48 + n - 48) = n
        omega
    · rw [dif_neg h]
      have hlt : n / 10 < n := Nat.div_lt_self (by omega) (by omega)
      have IH := ih (n / 10) hlt
      refine ⟨by simp, ?_, ?_⟩
      · intro c hc
        rcases List.mem_append.mp hc with hm | hm
        · exact IH.2.1 c hm
        · rw [List.mem_singleton] at hm
          subst hm
          exact digitChar_isDigit _ (Nat.mod_lt _ (by omega))
      · rw [digitsToNat_append_one, IH.2.2, digitChar_toNat _ (Nat.mod_lt _ (by omega))]
        have := Nat.div_add_mod n 10
        omega

theorem stripCI_self (pat : List Char) (hp : ∀ c ∈ pat, c.toLower = c) :
    ∀ rest, stripCI pat (pat ++ rest) = some rest := by
  induction pat with
  | nil => intro rest; rfl
  | cons p ps ih =>
    intro rest
    rw [List.cons_append, stripCI, if_pos (hp p (List.mem_cons_self _ _))]
    exact ih (fun c hc => hp c (List.mem_cons_of_mem _ hc)) rest

theorem takeDigits_all (ds : List Char) (hd : ∀ c ∈ ds, c.isDigit = true) :
    ∀ rest, headNonDigit rest → takeDigits (ds ++ rest) = (ds, rest) := by
  induction ds with
  | nil =>
    intro rest hr
    cases rest with
    | nil => rfl
    | cons c cs =>
      rw [List.nil_append, takeDigits]
      have hc : c.isDigit = false := hr
      rw [hc]
      simp
  | cons d0 ds' ih =>
    intro rest hr
    rw [List.cons_append, takeDigits, hd d0 (List.mem_cons_self _ _)]
    simp only [if_true]
    rw [ih (fun c hc => hd c (List.mem_cons_of_mem _ hc)) rest hr]

theorem take_len_sub (pre : List Char) (rest : List Char) (s : List Char)
    (h : s = pre ++ rest) : List.take (s.length - rest.length) s = pre := by
  subst h
  have hl : (pre ++ rest).length - rest.length = pre.length := by
    simp [List.length_append]
  rw [hl, List.take_left]

theorem matchProductUrl_split (D rest : List Char) (hD : D ≠ [])
    (hDd : ∀ c ∈ D, c.isDigit = true) (hrest : headNonDigit rest) :
    matchProductUrl ("http".data ++
        ('s' :: ("://".data ++ ("www.".data ++ (hostPath ++ (D ++ rest)))))) =
      some (String.mk ("https://www.bigdipper.com.ar/products/view/".data ++ D),
        digitsToNat D, rest) := by
  unfold matchProductUrl
  rw [stripCI_self "http".data (by decide)]
  simp only []
  rw [if_pos (show ('s').toLower = 's' by decide)]
  rw [stripCI_self "://".data (by decide)]
  simp only []
  rw [stripCI_self "www.".data (by decide)]
  simp only []
  rw [stripCI_self hostPath (by decide)]
  simp only []
  rw [takeDigits_all D hDd rest hrest]
  cases hDc : D with
  | nil => exact absurd hDc hD
  | cons d0 ds' =>
    subst hDc
    exact congrArg (fun l => some (String.mk l, digitsToNat (d0 :: ds'), rest))
      (take_len_sub _ rest _ (by simp [hostPath]))

theorem matchProductUrl_mkUrl (n : Nat) (rest : List Char) (hrest : headNonDigit rest) :
    matchProductUrl (mkUrl n ++ rest) = some (mkUrlStr n, n, rest) := by
  have hin : mkUrl n ++ rest = "http".data ++
      ('s' :: ("://".data ++ ("www.".data ++ (hostPath ++ (natDigits n ++ rest))))) := by
    rw [mkUrl]
    have hpre : "https://www.bigdipper.com.ar/products/view/".data
        = "http".data ++ ('s' :: ("://".data ++ ("www.".data ++ hostPath))) := by decide
    rw [hpre]
    simp [List.append_assoc]
  rw [hin,
    matchProductUrl_split (natDigits n) rest (natDigits_spec n).1 (natDigits_spec n).2.1 hrest,
    (natDigits_spec n).2.2]
  rfl

theorem extractUrlsAux_cons_match (f : Nat) (s : List Char) (u : String) (n : Nat)
    (rest : List Char) (hs : s ≠ []) (hm : matchProductUrl s = some (u, n, rest)) :
    extractUrlsAux (f + 1) s = (u, n) :: extractUrlsAux f rest := by
  cases s with
  | nil => exact absurd rfl hs
  | cons c cs => rw [extractUrlsAux, hm]

theorem extractUrlsAux_cons_skip (f : Nat) (c : Char) (cs : List Char)
    (hm : matchProductUrl (c :: cs) = none) :
    extractUrlsAux (f + 1) (c :: cs) = extractUrlsAux f cs := by
  rw [extractUrlsAux, hm]

theorem matchProductUrl_space (cs : List Char) : matchProductUrl (' ' :: cs) = none := by
  have h : stripCI "http".data (' ' :: cs) = none := by
    show stripCI ('h' :: "ttp".data) (' ' :: cs) = none
    rw [stripCI, if_neg (by decide)]
  unfold matchProductUrl
  rw [h]

theorem extractUrlsAux_urlsChars : ∀ (ns : List Nat) (f : Nat),
    (urlsChars ns).length ≤ f →
    extractUrlsAux f (urlsChars ns) = ns.map (fun n => (mkUrlStr n, n)) := by
  intro ns
  induction ns with
  | nil =>
    intro f _
    cases f <;> rfl
  | cons n rest ih =>
    intro f hf
    rw [urlsChars] at hf ⊢
    have h43 : ("https://www.bigdipper.com.ar/products/view/".data).length = 43 := by decide
    have hd1 : 1 ≤ (natDigits n).length :=
      List.length_pos.mpr (natDigits_spec n).1
    have hmk : (mkUrl n).length = 43 + (natDigits n).length := by
      rw [mkUrl, List.length_append, h43]
    have hlen : (mkUrl n ++ ' ' :: urlsChars rest).length =
        (mkUrl n).length + 1 + (urlsChars rest).length := by
      simp [List.length_append]
      omega
    cases f with
    | zero => exact absurd hf (by omega)
    | succ f' =>
      rw [extractUrlsAux_cons_match f' _ _ _ _ (by simp)
        (matchProductUrl_mkUrl n (' ' :: urlsChars rest)
          (show (' ' : Char).isDigit = false by decide))]
      congr 1
      cases f' with
      | zero => exact absurd hf (by omega)
      | succ f'' =>
        rw [extractUrlsAux_cons_skip f'' ' ' _ (matchProductUrl_space _)]
        exact ih f'' (by omega)

/-- C8 fails as stated: the output of `extract_urls` is **not** deduplicated:
    a text containing the same well-formed product URL twice yields the id
    twice. -/
theorem C8_counterexample :
    (extract_urls
        ("http://bigdipper.com.ar/products/view/7 http://bigdipper.com.ar/products/view/7")).map
        Prod.snd = [7, 7]
    ∧ ¬ ((extract_urls
        ("http://bigdipper.com.ar/products/view/7 http://bigdipper.com.ar/products/view/7")).map
        Prod.snd).Nodup := by
  constructor
  · rfl
  · decide

/-- C8 amended: for every occurrence of a well-formed product-view URL with
    numeric id `n`, `extract_urls` emits the pair `(url, n)`, in appearance
    order, one pair **per occurrence** — duplicates are kept, not
    deduplicated (the only dedup happens later, per product code, in the
    conversation loop). -/
theorem C8_url_occurrences (ns : List Nat) :
    extract_urls (String.mk (urlsChars ns)) = ns.map (fun n => (mkUrlStr n, n)) := by
  unfold extract_urls
  exact extractUrlsAux_urlsChars ns _ (le_refl _)

end BigDipper
